import Mathlib

/-!
Verification development for the staff-facing customer lookup application.

The TypeScript source is shallowly embedded: JavaScript strings become Lean
`String` (or `List Char` where character-level processing is needed), the
remote `users` / `customers` / `search_logs` tables become explicit lists
threaded through the functions, `localStorage` becomes an association list,
and fallible remote calls are parameterised by the outcome the remote store
returns.  Machine time (`Date.now()`) is an explicit natural-number
parameter (milliseconds since the epoch).
-/

namespace Aksa

/-! ## Data model (mirrors `src/types` usage and the Supabase row shapes) -/

/-- Application-side customer record (`Customer` in the source).
`latitude`/`longitude` are optional numeric strings (`latitude?: string`). -/
structure Customer where
  installationNumber : String
  name : String
  phone : String
  address : String
  latitude : Option String
  longitude : Option String
deriving Repr, DecidableEq

/-- Database row of the `customers` table (`SupabaseCustomer` in the source).
The numeric `latitude`/`longitude` columns are embedded as their decimal
string rendering (`none` for SQL `null`); only their presence matters for
the claims, never their floating-point value. -/
structure SupabaseCustomer where
  installation_number : String
  name : String
  phone : String
  address : String
  latitude : Option String
  longitude : Option String
deriving Repr, DecidableEq

/-- Database row of the `users` table (`SupabaseUser` in the source).
`allowed_device_id` uses `""` for SQL `null`/empty — both are falsy in the
JavaScript truthiness tests the source performs on this column. -/
structure SupabaseUser where
  username : String
  password : String
  allowed_device_id : String
deriving Repr, DecidableEq

/-! ## Device-bound authentication (`authenticateUser`, supabaseClient.ts) -/

/-- The two user-visible failures of `authenticateUser`:
`invalidCredentials` is the Turkish message "Kullanıcı adı veya şifre
hatalı.", `deviceNotAuthorized` the message "Bu hesaba giriş yapmaya
yetkili cihaz bu değil...". -/
inductive AuthError where
  | invalidCredentials
  | deviceNotAuthorized
deriving Repr, DecidableEq

/-- `.eq('username', username).single()`: the first row of the `users`
table matching the username (usernames are unique in the data model). -/
def findUser (users : List SupabaseUser) (username : String) : Option SupabaseUser :=
  users.find? (fun u => u.username == username)

/-- `authenticateUser(username, password, deviceId)` from
`src/services/supabaseClient.ts` (lines 189-236).  Returns the
unrestricted flag together with the post-state of the `users` table (the
only mutation is the first-use device binding `update`); a thrown error
leaves the table unchanged. -/
def authenticateUser (users : List SupabaseUser) (username password deviceId : String) :
    Except AuthError Bool × List SupabaseUser :=
  match findUser users username with
  | none => (.error .invalidCredentials, users)
  | some data =>
    if data.password ≠ password then
      (.error .invalidCredentials, users)
    else if data.allowed_device_id = "ANY_DEVICE" then
      (.ok true, users)
    else if data.allowed_device_id ≠ "" ∧ data.allowed_device_id ≠ deviceId then
      (.error .deviceNotAuthorized, users)
    else if data.allowed_device_id = "" ∧ deviceId ≠ "" then
      (.ok false,
       users.map (fun v =>
         if v.username == username then { v with allowed_device_id := deviceId } else v))
    else
      (.ok false, users)

/-- Admin edit `updateCredential(originalUsername, updated)` (supabaseClient.ts
lines 475-487): rewrites every `users` row whose username matches
`originalUsername`.  `allowedDeviceId || null` is embedded as the string
itself (`""` standing for `null`). -/
def updateCredential (users : List SupabaseUser) (originalUsername : String)
    (updated : SupabaseUser) : List SupabaseUser :=
  users.map (fun v =>
    if v.username == originalUsername then
      { v with username := updated.username, password := updated.password,
               allowed_device_id := updated.allowed_device_id }
    else v)

/-! ### C1: the four-way case analysis of `authenticateUser` -/

/-- **C1.** For every users table: `authenticate` fails with
`InvalidCredentials` when no row has the username or the stored password
differs; a matching credential with the `ANY_DEVICE` sentinel succeeds
unrestricted for every device; a concrete `allowedDeviceId` different
from `deviceId` fails with `DeviceNotAuthorized`; and (outside the
sentinel case) `allowedDeviceId = deviceId` succeeds restricted. -/
theorem authenticateUser_cases (users : List SupabaseUser) (un pw dev : String) :
    ((∀ u, findUser users un = some u → u.password ≠ pw) →
        authenticateUser users un pw dev = (.error .invalidCredentials, users)) ∧
    (∀ u, findUser users un = some u → u.password = pw →
        u.allowed_device_id = "ANY_DEVICE" →
        authenticateUser users un pw dev = (.ok true, users)) ∧
    (∀ u, findUser users un = some u → u.password = pw →
        u.allowed_device_id ≠ "ANY_DEVICE" → u.allowed_device_id ≠ "" →
        u.allowed_device_id ≠ dev →
        authenticateUser users un pw dev = (.error .deviceNotAuthorized, users)) ∧
    (∀ u, findUser users un = some u → u.password = pw →
        u.allowed_device_id ≠ "ANY_DEVICE" → u.allowed_device_id = dev →
        authenticateUser users un pw dev = (.ok false, users)) := by
  refine ⟨?_, ?_, ?_, ?_⟩
  · intro h
    unfold authenticateUser
    cases hf : findUser users un with
    | none => simp
    | some u =>
      have := h u hf
      simp [this]
  · intro u hf hpw hany
    unfold authenticateUser
    rw [hf]
    simp [hpw, hany]
  · intro u hf hpw hany hne hdev
    unfold authenticateUser
    rw [hf]
    simp [hpw, hany, hne, hdev]
  · intro u hf hpw hany heq
    unfold authenticateUser
    rw [hf]
    by_cases hnil : u.allowed_device_id = ""
    · simp [hpw, hany, hnil, ← heq]
    · have hdevne : dev ≠ "ANY_DEVICE" := heq ▸ hany
      simp [hpw, hany, hnil, heq, hdevne]

/-- Concrete instantiation of `authenticateUser_cases`. -/
theorem authenticateUser_cases_witness :
    authenticateUser [⟨"u1", "pw1", "ANY_DEVICE"⟩, ⟨"u2", "pw2", "devA"⟩]
        "u2" "pw2" "devB" =
      (.error .deviceNotAuthorized,
        [⟨"u1", "pw1", "ANY_DEVICE"⟩, ⟨"u2", "pw2", "devA"⟩]) :=
  (authenticateUser_cases [⟨"u1", "pw1", "ANY_DEVICE"⟩, ⟨"u2", "pw2", "devA"⟩]
      "u2" "pw2" "devB").2.2.1 ⟨"u2", "pw2", "devA"⟩ (by decide) rfl
    (by decide) (by decide) (by decide)

/-! ### C4: first-use device binding -/

/-- **C4, counterexample.** The claim fails as stated when the first login's
`deviceId` is the sentinel itself: a credential with empty
`allowed_device_id` gets bound to `"ANY_DEVICE"`, after which a login from
a *different* device succeeds (unrestricted) instead of failing. -/
theorem firstUse_binding_cex :
    authenticateUser [⟨"u", "p", ""⟩] "u" "p" "ANY_DEVICE" =
      (.ok false, [⟨"u", "p", "ANY_DEVICE"⟩]) ∧
    authenticateUser [⟨"u", "p", "ANY_DEVICE"⟩] "u" "p" "dev2" =
      (.ok true, [⟨"u", "p", "ANY_DEVICE"⟩]) := by
  constructor <;> rfl

/-- **C4, amended.** For a credential with empty `allowed_device_id` and a
first-login `deviceId` that is neither empty nor the `ANY_DEVICE`
sentinel: a successful `authenticate` persists `deviceId` as the new
`allowed_device_id`; re-authenticating with the same `deviceId` succeeds
and leaves the stored table unchanged (the binding is idempotent); and a
later `authenticate` with any different `deviceId` fails with
`DeviceNotAuthorized`. -/
theorem authenticateUser_first_use_binding
    (users : List SupabaseUser) (un pw dev dev2 : String) (u : SupabaseUser)
    (hf : findUser users un = some u) (hpw : u.password = pw)
    (hempty : u.allowed_device_id = "")
    (hdev : dev ≠ "") (hany : dev ≠ "ANY_DEVICE") (hdev2 : dev2 ≠ dev) :
    (authenticateUser users un pw dev).1 = .ok false ∧
    findUser (authenticateUser users un pw dev).2 un =
      some { u with allowed_device_id := dev } ∧
    authenticateUser (authenticateUser users un pw dev).2 un pw dev =
      (.ok false, (authenticateUser users un pw dev).2) ∧
    (authenticateUser (authenticateUser users un pw dev).2 un pw dev2).1 =
      .error .deviceNotAuthorized := by
  have hanyu : u.allowed_device_id ≠ "ANY_DEVICE" := by
    rw [hempty]; decide
  have hstate : authenticateUser users un pw dev =
      (.ok false, users.map (fun v =>
        if v.username == un then { v with allowed_device_id := dev } else v)) := by
    unfold authenticateUser
    rw [hf]
    simp [hpw, hempty, hdev, hanyu]
  have hf2 : users.find? (fun v => v.username == un) = some u := hf
  have hufind0 := List.find?_some hf2
  have hufind : (u.username == un) = true := hufind0
  have hmapfind : findUser (authenticateUser users un pw dev).2 un =
      some { u with allowed_device_id := dev } := by
    rw [hstate]
    unfold findUser at hf ⊢
    rw [List.find?_map]
    have hpred : ((fun v : SupabaseUser => v.username == un) ∘ (fun v =>
        if v.username == un then { v with allowed_device_id := dev } else v)) =
        fun v : SupabaseUser => v.username == un := by
      funext v
      by_cases h : v.username = un
      · simp [h]
      · simp [h]
    rw [hpred, hf]
    have huname : u.username = un := beq_iff_eq.mp hufind
    simp [huname]
  refine ⟨by rw [hstate], hmapfind, ?_, ?_⟩
  · conv_lhs => rw [authenticateUser]
    rw [hmapfind]
    simp [hpw, hany, hdev]
  · conv_lhs => rw [authenticateUser]
    rw [hmapfind]
    have : dev ≠ dev2 := fun h => hdev2 h.symm
    simp [hpw, hany, hdev, this]

/-- Concrete instantiation of `authenticateUser_first_use_binding`. -/
theorem authenticateUser_first_use_binding_witness :
    (authenticateUser [⟨"u", "p", ""⟩] "u" "p" "d1").1 = .ok false ∧
    findUser (authenticateUser [⟨"u", "p", ""⟩] "u" "p" "d1").2 "u" =
      some ⟨"u", "p", "d1"⟩ ∧
    authenticateUser (authenticateUser [⟨"u", "p", ""⟩] "u" "p" "d1").2 "u" "p" "d1" =
      (.ok false, (authenticateUser [⟨"u", "p", ""⟩] "u" "p" "d1").2) ∧
    (authenticateUser (authenticateUser [⟨"u", "p", ""⟩] "u" "p" "d1").2 "u" "p" "d2").1 =
      .error .deviceNotAuthorized :=
  authenticateUser_first_use_binding [⟨"u", "p", ""⟩] "u" "p" "d1" "d2"
    ⟨"u", "p", ""⟩ rfl rfl rfl (by decide) (by decide) (by decide)

/-! ### C5: concrete device bindings are stable under `authenticate` -/

/-- The post-state of `authenticateUser` is either the unchanged table or,
exactly when the matched credential has empty `allowed_device_id` and the
device id is non-empty, the table with that username's row bound. -/
theorem authenticateUser_snd_characterization
    (users : List SupabaseUser) (un pw dev : String) :
    (authenticateUser users un pw dev).2 = users ∨
    ∃ u₀, findUser users un = some u₀ ∧ u₀.allowed_device_id = "" ∧ dev ≠ "" ∧
      (authenticateUser users un pw dev).2 =
        users.map (fun v =>
          if v.username == un then { v with allowed_device_id := dev } else v) := by
  unfold authenticateUser
  cases hf : findUser users un with
  | none => exact .inl rfl
  | some u₀ =>
    by_cases h1 : u₀.password ≠ pw
    · left; simp [h1]
    · by_cases h2 : u₀.allowed_device_id = "ANY_DEVICE"
      · left; simp [h1, h2]
      · by_cases h3 : u₀.allowed_device_id ≠ "" ∧ u₀.allowed_device_id ≠ dev
        · left; simp [h1, h2, h3]
        · by_cases h4 : u₀.allowed_device_id = "" ∧ dev ≠ ""
          · right; exact ⟨u₀, rfl, h4.1, h4.2, by simp [h1, h2, h3, h4]⟩
          · left; simp [h1, h2, h3, h4]

/-- **C5.** In a users table with unique usernames, a credential whose
`allowed_device_id` is a concrete device value (neither empty nor the
`ANY_DEVICE` sentinel) is never changed by any `authenticateUser` call:
the post-state table has the same length and that row is untouched. -/
theorem concrete_allowedDeviceId_stable
    (users : List SupabaseUser)
    (huniq : users.Pairwise (fun a b => a.username ≠ b.username))
    (un pw dev : String) :
    ((authenticateUser users un pw dev).2).length = users.length ∧
    ∀ i (hi : i < users.length),
      (users[i]).allowed_device_id ≠ "" →
      (users[i]).allowed_device_id ≠ "ANY_DEVICE" →
      ((authenticateUser users un pw dev).2)[i]? = some (users[i]) := by
  rcases authenticateUser_snd_characterization users un pw dev with
    h | ⟨u₀, hf, hempty, _hdev, h⟩
  · rw [h]
    exact ⟨rfl, fun i hi _ _ => List.getElem?_eq_getElem hi⟩
  · rw [h]
    refine ⟨by simp, ?_⟩
    intro i hi hne _hany
    rw [List.getElem?_map, List.getElem?_eq_getElem hi, Option.map_some']
    by_cases hu : ((users[i]).username == un) = true
    · exfalso
      have hmem := List.mem_of_find?_eq_some hf
      obtain ⟨j, hj, hju⟩ := List.getElem_of_mem hmem
      have hf2 : users.find? (fun v => v.username == un) = some u₀ := hf
      have hju0 := List.find?_some hf2
      have hju2 : (u₀.username == un) = true := hju0
      have hij : i = j := by
        by_contra hij
        rcases Nat.lt_or_ge i j with hlt | hge
        · exact (List.pairwise_iff_getElem.mp huniq i j hi hj hlt)
            (by rw [hju]; exact (beq_iff_eq.mp hu).trans (beq_iff_eq.mp hju2).symm)
        · have hlt : j < i := Nat.lt_of_le_of_ne hge (fun hh => hij hh.symm)
          exact (List.pairwise_iff_getElem.mp huniq j i hj hi hlt)
            (by rw [hju]; exact (beq_iff_eq.mp hju2).trans (beq_iff_eq.mp hu).symm)
      subst hij
      rw [hju, hempty] at hne
      exact hne rfl
    · simp [hu]

/-- Concrete instantiation of `concrete_allowedDeviceId_stable`. -/
theorem concrete_allowedDeviceId_stable_witness :
    ((authenticateUser [⟨"u", "p", "devA"⟩] "u" "p" "devB").2).length = 1 ∧
    (authenticateUser [⟨"u", "p", "devA"⟩] "u" "p" "devB").2[0]? =
      some ⟨"u", "p", "devA"⟩ := by
  have h := concrete_allowedDeviceId_stable [⟨"u", "p", "devA"⟩]
    (by simp) "u" "p" "devB"
  exact ⟨h.1, h.2 0 (by decide) (by decide) (by decide)⟩

/-! ## Time/holiday access gate (`isWithinWorkingHours`, LoginScreen.tsx) -/

/-- The wall-clock components the source reads off a JavaScript `Date`:
`getFullYear`, `getMonth()+1`, `getDate` (day of month), `getDay`
(0 = Sunday … 6 = Saturday) and `getHours` (local hour, 0-23). -/
structure LocalTime where
  year : Nat
  month : Nat
  day : Nat
  dayOfWeek : Nat
  hour : Nat
deriving Repr, DecidableEq

/-- The static Turkish public-holiday calendar 2024-2030 from
`LoginScreen.tsx` (the `publicHolidays` set), in `YYYY-MM-DD` form. -/
def publicHolidays : List String := [
    "2024-01-01", "2024-04-09", "2024-04-10", "2024-04-11",
    "2024-04-12", "2024-04-23", "2024-05-01", "2024-05-19",
    "2024-06-15", "2024-06-16", "2024-06-17", "2024-06-18",
    "2024-06-19", "2024-07-15", "2024-08-30", "2024-10-29",
    "2025-01-01", "2025-03-29", "2025-03-30", "2025-03-31",
    "2025-04-01", "2025-04-23", "2025-05-01", "2025-05-19",
    "2025-06-05", "2025-06-06", "2025-06-07", "2025-06-08",
    "2025-06-09", "2025-07-15", "2025-08-30", "2025-10-29",
    "2026-01-01", "2026-03-19", "2026-03-20", "2026-03-21",
    "2026-03-22", "2026-04-23", "2026-05-01", "2026-05-19",
    "2026-05-26", "2026-05-27", "2026-05-28", "2026-05-29",
    "2026-05-30", "2026-07-15", "2026-08-30", "2026-10-29",
    "2027-01-01", "2027-03-08", "2027-03-09", "2027-03-10",
    "2027-03-11", "2027-04-23", "2027-05-01", "2027-05-15",
    "2027-05-16", "2027-05-17", "2027-05-18", "2027-05-19",
    "2027-07-15", "2027-08-30", "2027-10-29", "2028-01-01",
    "2028-02-26", "2028-02-27", "2028-02-28", "2028-04-23",
    "2028-05-01", "2028-05-05", "2028-05-06", "2028-05-07",
    "2028-05-08", "2028-05-09", "2028-05-19", "2028-07-15",
    "2028-08-30", "2028-10-29", "2029-01-01", "2029-02-14",
    "2029-02-15", "2029-02-16", "2029-02-17", "2029-04-23",
    "2029-04-24", "2029-04-25", "2029-04-26", "2029-04-27",
    "2029-04-28", "2029-05-01", "2029-05-19", "2029-07-15",
    "2029-08-30", "2029-10-29", "2030-01-01", "2030-02-03",
    "2030-02-04", "2030-02-05", "2030-02-06", "2030-04-13",
    "2030-04-14", "2030-04-15", "2030-04-16", "2030-04-17",
    "2030-04-23", "2030-05-01", "2030-05-19", "2030-07-15",
    "2030-08-30", "2030-10-29"
]

/-- `String(n).padStart(2, '0')`. -/
def pad2 (n : Nat) : String :=
  if n < 10 then "0" ++ toString n else toString n

/-- The `YYYY-MM-DD` key the gate builds from the current date. -/
def formatDate (t : LocalTime) : String :=
  toString t.year ++ "-" ++ pad2 t.month ++ "-" ++ pad2 t.day

/-- `isWithinWorkingHours()` from `LoginScreen.tsx` (lines 429-461), with
the implicit `new Date()` made an explicit parameter. -/
def isWithinWorkingHours (t : LocalTime) : Bool :=
  if t.day > 20 then false
  else if t.dayOfWeek = 0 ∨ t.dayOfWeek = 6 then false
  else if t.hour < 8 ∨ t.hour ≥ 18 then false
  else if publicHolidays.contains (formatDate t) then false
  else true

/-- **C2.** For a wall-clock instant (with a well-formed day-of-week),
the service gate is open exactly when the day of month is at most 20, the
day of week is Monday-Friday, the local hour lies in `[8, 18)` and the
`Y-M-D` date is not a listed public holiday.  The spec's individual test
points (day 21, weekends, 07:59, 18:00, 08:00 on an ordinary weekday)
are instances of this equivalence. -/
theorem isWithinWorkingHours_iff (t : LocalTime) (hdow : t.dayOfWeek ≤ 6) :
    isWithinWorkingHours t = true ↔
      (t.day ≤ 20 ∧ 1 ≤ t.dayOfWeek ∧ t.dayOfWeek ≤ 5 ∧
       8 ≤ t.hour ∧ t.hour < 18 ∧ formatDate t ∉ publicHolidays) := by
  unfold isWithinWorkingHours
  split_ifs with h1 h2 h3 h4
  · simp; omega
  · simp; omega
  · simp; omega
  · simp only [false_iff]
    intro hc
    exact hc.2.2.2.2.2 (by simpa using h4)
  · simp only [true_iff]
    refine ⟨by omega, by omega, by omega, by omega, by omega, ?_⟩
    intro hc
    exact h4 (by simpa using hc)

/-- Concrete instantiation of `isWithinWorkingHours_iff`: the gate is open
at 08:00 on Tuesday 2026-02-03 (day 3, not a holiday). -/
theorem isWithinWorkingHours_iff_witness :
    (2 : Nat) ≤ 6 ∧
    (isWithinWorkingHours ⟨2026, 2, 3, 2, 8⟩ = true ↔
      (3 ≤ 20 ∧ 1 ≤ 2 ∧ 2 ≤ 5 ∧ 8 ≤ 8 ∧ 8 < 18 ∧
       formatDate ⟨2026, 2, 3, 2, 8⟩ ∉ publicHolidays)) :=
  ⟨by decide, isWithinWorkingHours_iff ⟨2026, 2, 3, 2, 8⟩ (by decide)⟩

/-! ## Bulk upsert import (`bulkUpsertCustomers`, supabaseClient.ts) -/

/-- A Supabase/PostgREST error object: only `code` and `message` are
inspected by the import pipeline. -/
structure DbError where
  code : String
  message : String
deriving Repr, DecidableEq

/-- Outcome of one chunk's `upsert` remote call: a clean `success`, an
error object returned in `{ error }`, or a thrown exception (caught by
the surrounding `try`). -/
inductive ChunkResult where
  | success
  | failure (e : DbError)
  | exception (msg : String)

/-- `pat` occurs as a contiguous substring (JavaScript `includes`). -/
def containsSub (pat : List Char) : List Char → Bool
  | [] => pat.isEmpty
  | a :: rest => pat.isPrefixOf (a :: rest) || containsSub pat rest

/-- The permission/authorization classification of a returned error:
`error.code === '42501' || error.message.includes('row-level security')`. -/
def isPermissionError (e : DbError) : Bool :=
  e.code == "42501" || containsSub "row-level security".toList e.message.toList

/-- The result object of `bulkUpsertCustomers`. -/
structure BulkResult where
  success : Nat
  errorCount : Nat
  error : Option String
deriving Repr, DecidableEq

/-- The fixed message returned on a row-level-security abort (the Turkish
"YETKİ HATASI: …" string, abbreviated here). -/
def rlsAbortMessage : String := "YETKI HATASI: Supabase yazma izni yok."

/-- Helper for the chunk partition: structural recursion on a fuel bound
(the fuel `l.length` is never exhausted since every step consumes at
least one element, so the `0` case is unreachable). -/
def chunksGo : Nat → List α → List (List α)
  | _, [] => []
  | 0, _ :: _ => []
  | fuel + 1, a :: rest => ((a :: rest).take 200) :: chunksGo fuel ((a :: rest).drop 200)

/-- The chunk partition of the row list: slices `[i, i+200)` in order
(`CHUNK_SIZE = 200`; the last chunk may be shorter). -/
def chunksOf200 (l : List α) : List (List α) := chunksGo l.length l

/-- The chunk loop of `bulkUpsertCustomers`: `total` is `dbRows.length`,
`k` the ordinal of the next chunk (the remote outcome of chunk `k` is
`oracle k`), and `succ`/`errs`/`lastErr` the running accumulators.  A
returned non-permission error or a thrown exception adds the chunk's
record count to the error total and continues; a permission-class
returned error aborts at once reporting `total - succ` errors. -/
def runChunks (oracle : Nat → ChunkResult) (total : Nat) :
    List (List SupabaseCustomer) → Nat → Nat → Nat → Option String → BulkResult
  | [], _, succ, errs, lastErr => ⟨succ, errs, lastErr⟩
  | chunk :: rest, k, succ, errs, lastErr =>
    match oracle k with
    | .success => runChunks oracle total rest (k + 1) (succ + chunk.length) errs lastErr
    | .failure e =>
      if isPermissionError e then
        ⟨succ, total - succ, some rlsAbortMessage⟩
      else
        runChunks oracle total rest (k + 1) succ (errs + chunk.length) (some e.message)
    | .exception m => runChunks oracle total rest (k + 1) succ (errs + chunk.length) (some m)

/-- JavaScript `s.replace(',', '.')` with string arguments: only the first
occurrence is replaced. -/
def jsReplaceFirst (pat rep : Char) : List Char → List Char
  | [] => []
  | a :: rest => if a = pat then rep :: rest else a :: jsReplaceFirst pat rep rest

/-- `c.latitude ? parseFloat(c.latitude.replace(',', '.')) : null`: the
resulting number is embedded as its comma-normalized source string
(`none` for `null`; `""` and `undefined` are falsy). -/
def normalizeCoord : Option String → Option String
  | none => none
  | some s => if s = "" then none else some (String.mk (jsReplaceFirst ',' '.' s.toList))

/-- The `customers.map(...)` conversion into Supabase rows at the top of
`bulkUpsertCustomers`. -/
def customerToDbRow (c : Customer) : SupabaseCustomer :=
  { installation_number := c.installationNumber
    name := c.name
    phone := c.phone
    address := c.address
    latitude := normalizeCoord c.latitude
    longitude := normalizeCoord c.longitude }

/-- `bulkUpsertCustomers(customers)` from supabaseClient.ts (lines
337-402), with the remote upsert outcome of the `k`-th chunk supplied by
`oracle k` (progress callbacks and throttling pauses have no effect on
the result and are omitted). -/
def bulkUpsertCustomers (customers : List Customer) (oracle : Nat → ChunkResult) :
    BulkResult :=
  if customers.isEmpty then ⟨0, 0, none⟩
  else
    let dbRows := customers.map customerToDbRow
    runChunks oracle dbRows.length (chunksOf200 dbRows) 0 0 0 none

/-- Chunk `k` is a success. -/
def isChunkSuccess : ChunkResult → Bool
  | .success => true
  | _ => false

/-- Chunk `k` is a returned permission-class error (thrown exceptions are
caught and never classified as permission failures). -/
def isPermissionFailure : ChunkResult → Bool
  | .failure e => isPermissionError e
  | _ => false

/-- Total record count of the chunks whose remote call succeeds, the
chunk at position `j` receiving outcome `oracle (k + j)`. -/
def okLen (oracle : Nat → ChunkResult) : List (List α) → Nat → Nat
  | [], _ => 0
  | c :: rest, k =>
    (if isChunkSuccess (oracle k) then c.length else 0) + okLen oracle rest (k + 1)

/-- Total record count of the chunks whose remote call fails. -/
def failLen (oracle : Nat → ChunkResult) : List (List α) → Nat → Nat
  | [], _ => 0
  | c :: rest, k =>
    (if isChunkSuccess (oracle k) then 0 else c.length) + failLen oracle rest (k + 1)

/-- Sum of the chunk lengths. -/
def sumLen (l : List (List α)) : Nat := (l.map List.length).sum

theorem sumLen_chunksGo (fuel : Nat) :
    ∀ l : List α, l.length ≤ fuel → sumLen (chunksGo fuel l) = l.length := by
  induction fuel with
  | zero =>
    intro l h
    have : l = [] := List.eq_nil_of_length_eq_zero (Nat.le_zero.mp h)
    subst this
    simp [chunksGo, sumLen]
  | succ n ih =>
    intro l h
    cases l with
    | nil => simp [chunksGo, sumLen]
    | cons a rest =>
      rw [chunksGo]
      have hrec := ih ((a :: rest).drop 200)
        (by simp [List.length_drop] at h ⊢; omega)
      simp only [sumLen, List.map_cons, List.sum_cons] at hrec ⊢
      rw [hrec]
      simp [List.length_drop, List.length_take]
      omega

theorem sumLen_chunksOf200 (l : List α) : sumLen (chunksOf200 l) = l.length :=
  sumLen_chunksGo l.length l (Nat.le_refl _)

theorem runChunks_sum (oracle : Nat → ChunkResult) (total : Nat) :
    ∀ (chunks : List (List SupabaseCustomer)) (k succ errs : Nat) (le : Option String),
      succ + errs + sumLen chunks = total →
      (runChunks oracle total chunks k succ errs le).success +
        (runChunks oracle total chunks k succ errs le).errorCount = total := by
  intro chunks
  induction chunks with
  | nil =>
    intro k succ errs le h
    simpa [runChunks, sumLen] using h
  | cons c rest ih =>
    intro k succ errs le h
    have hsum : succ + errs + (c.length + sumLen rest) = total := by
      simpa [sumLen] using h
    rw [runChunks]
    cases oracle k with
    | success => exact ih (k + 1) (succ + c.length) errs le (by omega)
    | failure e =>
      by_cases hp : isPermissionError e
      · simp only [hp, if_true]
        omega
      · simp only [hp, if_false]
        exact ih (k + 1) succ (errs + c.length) (some e.message) (by omega)
    | exception m => exact ih (k + 1) succ (errs + c.length) (some m) (by omega)

theorem runChunks_no_permission (oracle : Nat → ChunkResult) (total : Nat) :
    ∀ (chunks : List (List SupabaseCustomer)) (k succ errs : Nat) (le : Option String),
      (∀ j, j < chunks.length → isPermissionFailure (oracle (k + j)) = false) →
      (runChunks oracle total chunks k succ errs le).success = succ + okLen oracle chunks k ∧
      (runChunks oracle total chunks k succ errs le).errorCount = errs + failLen oracle chunks k := by
  intro chunks
  induction chunks with
  | nil =>
    intro k succ errs le _
    simp [runChunks, okLen, failLen]
  | cons c rest ih =>
    intro k succ errs le hnp
    have h0 : isPermissionFailure (oracle k) = false := by
      simpa using hnp 0 (by simp)
    have htail : ∀ j, j < rest.length → isPermissionFailure (oracle (k + 1 + j)) = false := by
      intro j hj
      have := hnp (j + 1) (by simp; omega)
      simpa [Nat.add_assoc, Nat.add_comm 1 j] using this
    rw [runChunks]
    cases hc : oracle k with
    | success =>
      have := ih (k + 1) (succ + c.length) errs le htail
      simp [okLen, failLen, hc, isChunkSuccess]
      omega
    | failure e =>
      have hp : isPermissionError e = false := by
        simpa [isPermissionFailure, hc] using h0
      simp only [hp, Bool.false_eq_true, if_false]
      have := ih (k + 1) succ (errs + c.length) (some e.message) htail
      simp [okLen, failLen, hc, isChunkSuccess]
      omega
    | exception m =>
      have := ih (k + 1) succ (errs + c.length) (some m) htail
      simp [okLen, failLen, hc, isChunkSuccess]
      omega

theorem runChunks_permission_abort (oracle : Nat → ChunkResult) (total : Nat) :
    ∀ (chunks : List (List SupabaseCustomer)) (j k succ errs : Nat) (le : Option String),
      j < chunks.length →
      isPermissionFailure (oracle (k + j)) = true →
      (∀ j2, j2 < j → isPermissionFailure (oracle (k + j2)) = false) →
      (runChunks oracle total chunks k succ errs le).success =
        succ + okLen oracle (chunks.take j) k ∧
      (runChunks oracle total chunks k succ errs le).errorCount =
        total - (runChunks oracle total chunks k succ errs le).success := by
  intro chunks
  induction chunks with
  | nil => intro j k succ errs le hj; simp at hj
  | cons c rest ih =>
    intro j k succ errs le hj hperm hbefore
    cases j with
    | zero =>
      rw [runChunks]
      cases hc : oracle k with
      | success => simp [isPermissionFailure, hc] at hperm
      | exception m => simp [isPermissionFailure, hc] at hperm
      | failure e =>
        have hp : isPermissionError e = true := by
          simpa [isPermissionFailure, hc] using hperm
        simp [hp, okLen]
    | succ j' =>
      have h0 : isPermissionFailure (oracle k) = false := by
        simpa using hbefore 0 (by omega)
      have hperm2 : isPermissionFailure (oracle (k + 1 + j')) = true := by
        have : k + 1 + j' = k + (j' + 1) := by omega
        rw [this]; exact hperm
      have hbefore2 : ∀ j2, j2 < j' → isPermissionFailure (oracle (k + 1 + j2)) = false := by
        intro j2 hj2
        have : k + 1 + j2 = k + (j2 + 1) := by omega
        rw [this]; exact hbefore (j2 + 1) (by omega)
      have hj2 : j' < rest.length := by simpa using hj
      rw [runChunks]
      cases hc : oracle k with
      | success =>
        have := ih j' (k + 1) (succ + c.length) errs le hj2 hperm2 hbefore2
        simp [List.take_succ_cons, okLen, hc, isChunkSuccess]
        omega
      | failure e =>
        have hp : isPermissionError e = false := by
          simpa [isPermissionFailure, hc] using h0
        simp only [hp, Bool.false_eq_true, if_false]
        have := ih j' (k + 1) succ (errs + c.length) (some e.message) hj2 hperm2 hbefore2
        simp [List.take_succ_cons, okLen, hc, isChunkSuccess]
        omega
      | exception m =>
        have := ih j' (k + 1) succ (errs + c.length) (some m) hj2 hperm2 hbefore2
        simp [List.take_succ_cons, okLen, hc, isChunkSuccess]
        omega

/-- **C3.** For every input list and every per-chunk remote outcome:
the reported success and error counts always sum to the input length
(partial failure is reported, never thrown); when no chunk fails with a
permission-class error, the success count is exactly the record count of
the succeeding chunks and the error count exactly that of the failing
chunks (each failing chunk contributes its full length and processing
continues in order); and when chunk `j` is the first permission-class
failure, the run aborts with the successes of the chunks before `j` and
all other records counted as errors. -/
theorem bulkUpsertCustomers_accounting (customers : List Customer)
    (oracle : Nat → ChunkResult) :
    (bulkUpsertCustomers customers oracle).success +
      (bulkUpsertCustomers customers oracle).errorCount = customers.length ∧
    ((∀ j, j < (chunksOf200 (customers.map customerToDbRow)).length →
        isPermissionFailure (oracle j) = false) →
      (bulkUpsertCustomers customers oracle).success =
        okLen oracle (chunksOf200 (customers.map customerToDbRow)) 0 ∧
      (bulkUpsertCustomers customers oracle).errorCount =
        failLen oracle (chunksOf200 (customers.map customerToDbRow)) 0) ∧
    (∀ j, j < (chunksOf200 (customers.map customerToDbRow)).length →
      isPermissionFailure (oracle j) = true →
      (∀ j2, j2 < j → isPermissionFailure (oracle j2) = false) →
      (bulkUpsertCustomers customers oracle).success =
        okLen oracle ((chunksOf200 (customers.map customerToDbRow)).take j) 0 ∧
      (bulkUpsertCustomers customers oracle).errorCount =
        customers.length - (bulkUpsertCustomers customers oracle).success) := by
  by_cases hemp : customers.isEmpty
  · have : customers = [] := List.isEmpty_iff.mp hemp
    subst this
    refine ⟨by simp [bulkUpsertCustomers], ?_, ?_⟩
    · intro _
      simp [bulkUpsertCustomers, chunksOf200, okLen, failLen]
    · intro j hj
      simp [chunksOf200, chunksGo] at hj
  · have hbulk : bulkUpsertCustomers customers oracle =
        runChunks oracle (customers.map customerToDbRow).length
          (chunksOf200 (customers.map customerToDbRow)) 0 0 0 none := by
      simp [bulkUpsertCustomers, hemp]
    have hlen : (customers.map customerToDbRow).length = customers.length := by simp
    refine ⟨?_, ?_, ?_⟩
    · rw [hbulk, hlen]
      exact runChunks_sum oracle customers.length _ 0 0 0 none
        (by rw [sumLen_chunksOf200]; simp)
    · intro hnp
      rw [hbulk, hlen]
      have := runChunks_no_permission oracle customers.length
        (chunksOf200 (customers.map customerToDbRow)) 0 0 0 none
        (by intro j hj; simpa using hnp j hj)
      simpa using this
    · intro j hj hperm hbefore
      rw [hbulk, hlen]
      have := runChunks_permission_abort oracle customers.length
        (chunksOf200 (customers.map customerToDbRow)) j 0 0 0 none hj
        (by simpa using hperm) (by intro j2 hj2; simpa using hbefore j2 hj2)
      simpa using this

/-- Concrete import scenarios for `bulkUpsertCustomers_accounting`:
250 records (two chunks), one run with a plain failure on the second
chunk, one with a permission failure there. -/
def witnessCustomers : List Customer :=
  List.replicate 250 ⟨"1", "Ali", "555", "Adres", none, none⟩

/-- Oracle: chunk 0 succeeds, later chunks fail with a plain error. -/
def witnessOracleA : Nat → ChunkResult :=
  fun j => if j = 0 then .success else .failure ⟨"500", "boom"⟩

/-- Oracle: chunk 0 succeeds, later chunks fail with a permission error. -/
def witnessOracleB : Nat → ChunkResult :=
  fun j => if j = 0 then .success else .failure ⟨"42501", "denied"⟩

set_option maxRecDepth 4000 in
/-- Concrete instantiation of `bulkUpsertCustomers_accounting`. -/
theorem bulkUpsertCustomers_accounting_witness :
    ((bulkUpsertCustomers witnessCustomers witnessOracleA).success +
      (bulkUpsertCustomers witnessCustomers witnessOracleA).errorCount = 250) ∧
    ((bulkUpsertCustomers witnessCustomers witnessOracleA).success =
        okLen witnessOracleA (chunksOf200 (witnessCustomers.map customerToDbRow)) 0 ∧
      (bulkUpsertCustomers witnessCustomers witnessOracleA).errorCount =
        failLen witnessOracleA (chunksOf200 (witnessCustomers.map customerToDbRow)) 0) ∧
    ((bulkUpsertCustomers witnessCustomers witnessOracleB).success =
        okLen witnessOracleB
          ((chunksOf200 (witnessCustomers.map customerToDbRow)).take 1) 0 ∧
      (bulkUpsertCustomers witnessCustomers witnessOracleB).errorCount =
        250 - (bulkUpsertCustomers witnessCustomers witnessOracleB).success) :=
  ⟨(bulkUpsertCustomers_accounting witnessCustomers witnessOracleA).1,
   (bulkUpsertCustomers_accounting witnessCustomers witnessOracleA).2.1
     (by decide),
   (bulkUpsertCustomers_accounting witnessCustomers witnessOracleB).2.2 1
     (by decide) (by decide) (by decide)⟩

/-! ## Customer lookup with local cache (supabaseClient.ts lines 36-63, 157-186) -/

/-- A persisted cache record: `{ data, timestamp }` (the JSON round trip
through `localStorage` is the identity on well-formed records). -/
structure CacheRecord where
  data : Customer
  timestamp : Nat
deriving Repr, DecidableEq

/-- `localStorage`, restricted to the cache entries: an association list
with unique keys. -/
abbrev CacheStore := List (String × CacheRecord)

/-- `CACHE_PREFIX = 'qs_cache_v1_'`. -/
def cachePfx : String := "qs_cache_v1_"

/-- `CACHE_DURATION_MS = 1000 * 60 * 60 * 24` (24 hours). -/
def CACHE_DURATION_MS : Nat := 1000 * 60 * 60 * 24

/-- `localStorage.getItem`. -/
def lsGetItem (store : CacheStore) (k : String) : Option CacheRecord :=
  (store.find? (fun p => p.1 == k)).map (fun p => p.2)

/-- `localStorage.setItem`: replaces the entry with that key, or appends. -/
def lsSetItem : CacheStore → String → CacheRecord → CacheStore
  | [], k, v => [(k, v)]
  | (k0, v0) :: rest, k, v =>
    if k0 = k then (k, v) :: rest else (k0, v0) :: lsSetItem rest k v

/-- `localStorage.removeItem`. -/
def lsRemoveItem (store : CacheStore) (k : String) : CacheStore :=
  store.filter (fun p => p.1 != k)

/-- `getFromCache(key)` with `Date.now()` explicit: a missing key is a
miss; an entry older than the TTL is removed (lazy invalidation) and is a
miss; otherwise the cached data is returned.  Returns the read result
together with the post-state of the store. -/
def getFromCache (store : CacheStore) (now : Nat) (key : String) :
    Option Customer × CacheStore :=
  match lsGetItem store (cachePfx ++ key) with
  | none => (none, store)
  | some record =>
    if now - record.timestamp > CACHE_DURATION_MS then
      (none, lsRemoveItem store (cachePfx ++ key))
    else
      (some record.data, store)

/-- `saveToCache(key, data)`: stores `{ data, timestamp: Date.now() }`. -/
def saveToCache (store : CacheStore) (now : Nat) (key : String) (data : Customer) :
    CacheStore :=
  lsSetItem store (cachePfx ++ key) ⟨data, now⟩

/-- `mapSupabaseCustomerToApp`: DB row into the application `Customer`
shape (`.toString()` on the numeric columns is the identity on our
string-rendered embedding). -/
def mapSupabaseCustomerToApp (data : SupabaseCustomer) : Customer :=
  { installationNumber := data.installation_number
    name := data.name
    phone := data.phone
    address := data.address
    latitude := data.latitude
    longitude := data.longitude }

/-- The lookup failure: "Bu tesisat numarasına ait kayıt bulunamadı."
(PGRST116, no matching row).  Transport-level failures are outside the
scope of the cache-policy claims. -/
inductive LookupError where
  | notFound
deriving Repr, DecidableEq

/-- `findCustomerByInstallationNumber` (lines 157-186): cache first, then
the remote exact-match query (`remote` returns the row for a key, `none`
when no row matches).  The third component records whether a remote
query was issued. -/
def findCustomerByInstallationNumber (remote : String → Option SupabaseCustomer)
    (store : CacheStore) (now : Nat) (installationNumber : String) :
    Except LookupError Customer × CacheStore × Bool :=
  match getFromCache store now installationNumber with
  | (some cached, store1) => (.ok cached, store1, false)
  | (none, store1) =>
    match remote installationNumber with
    | none => (.error .notFound, store1, true)
    | some row =>
      let customer := mapSupabaseCustomerToApp row
      (.ok customer, saveToCache store1 now installationNumber customer, true)

theorem lsGetItem_lsSetItem (store : CacheStore) (k : String) (v : CacheRecord) :
    lsGetItem (lsSetItem store k v) k = some v := by
  induction store with
  | nil => simp [lsSetItem, lsGetItem, List.find?]
  | cons p rest ih =>
    obtain ⟨k0, v0⟩ := p
    by_cases h : k0 = k
    · simp [lsSetItem, h, lsGetItem, List.find?]
    · have hb : (k0 == k) = false := by simp [h]
      simp only [lsSetItem, if_neg h]
      simpa [lsGetItem, List.find?, hb] using ih

/-- **C6.** The cache policy of `findCustomerByInstallationNumber`:
a fresh cache hit is returned without a remote query and with the store
untouched; on a missing key the remote store is queried and a found row
is mapped, saved with the current timestamp, and returned; on an expired
entry the stale entry is discarded at read time and the remote path runs
against the pruned store; and a value saved at time `now` and re-read at
any `t1` within the TTL is returned identically, without a remote call,
whatever the remote store would answer. -/
theorem findCustomer_cache_policy (remote : String → Option SupabaseCustomer)
    (store : CacheStore) (now t1 : Nat) (key : String) :
    (∀ record, lsGetItem store (cachePfx ++ key) = some record →
      now - record.timestamp ≤ CACHE_DURATION_MS →
      findCustomerByInstallationNumber remote store now key =
        (.ok record.data, store, false)) ∧
    (lsGetItem store (cachePfx ++ key) = none →
      (findCustomerByInstallationNumber remote store now key).2.2 = true ∧
      ∀ row, remote key = some row →
        findCustomerByInstallationNumber remote store now key =
          (.ok (mapSupabaseCustomerToApp row),
           saveToCache store now key (mapSupabaseCustomerToApp row), true)) ∧
    (∀ record, lsGetItem store (cachePfx ++ key) = some record →
      now - record.timestamp > CACHE_DURATION_MS →
      (findCustomerByInstallationNumber remote store now key).2.2 = true ∧
      ∀ row, remote key = some row →
        findCustomerByInstallationNumber remote store now key =
          (.ok (mapSupabaseCustomerToApp row),
           saveToCache (lsRemoveItem store (cachePfx ++ key)) now key
             (mapSupabaseCustomerToApp row), true)) ∧
    (∀ data remote2, t1 - now ≤ CACHE_DURATION_MS →
      findCustomerByInstallationNumber remote2 (saveToCache store now key data) t1 key =
        (.ok data, saveToCache store now key data, false)) := by
  refine ⟨?_, ?_, ?_, ?_⟩
  · intro record hrec hfresh
    unfold findCustomerByInstallationNumber getFromCache
    rw [hrec]
    simp [Nat.not_lt.mpr hfresh, Nat.not_lt_of_le hfresh]
  · intro hnone
    unfold findCustomerByInstallationNumber getFromCache
    rw [hnone]
    constructor
    · cases hr : remote key <;> simp
    · intro row hrow
      rw [hrow]
  · intro record hrec hstale
    unfold findCustomerByInstallationNumber getFromCache
    rw [hrec]
    simp only [if_pos hstale]
    constructor
    · cases hr : remote key <;> simp
    · intro row hrow
      rw [hrow]
  · intro data remote2 hfresh
    unfold findCustomerByInstallationNumber getFromCache
    rw [show saveToCache store now key data =
          lsSetItem store (cachePfx ++ key) ⟨data, now⟩ from rfl]
    rw [lsGetItem_lsSetItem]
    simp [Nat.not_lt_of_le hfresh]

/-- Concrete instantiation of `findCustomer_cache_policy`: store at time
0, re-read at the last instant of the TTL. -/
theorem findCustomer_cache_policy_witness :
    findCustomerByInstallationNumber (fun _ => none)
        (saveToCache [] 0 "123" ⟨"123", "Ali", "5", "A", none, none⟩)
        CACHE_DURATION_MS "123" =
      (.ok ⟨"123", "Ali", "5", "A", none, none⟩,
       saveToCache [] 0 "123" ⟨"123", "Ali", "5", "A", none, none⟩, false) :=
  (findCustomer_cache_policy (fun _ => none) [] 0 CACHE_DURATION_MS "123").2.2.2
    ⟨"123", "Ali", "5", "A", none, none⟩ (fun _ => none) (by omega)

/-! ## Search logging (`logSearchQuery`, supabaseClient.ts 238-248; `performSearch`, MainScreen.tsx 63-114) -/

/-- JavaScript whitespace for `String.prototype.trim` (space, tab, LF,
CR, VT, FF; the exotic Unicode space classes do not occur in this
application's data). -/
def jsIsWs (c : Char) : Bool :=
  c == ' ' || c == '\t' || c == '\n' || c == '\r' ||
    c == Char.ofNat 11 || c == Char.ofNat 12

/-- `trim()` on a character list: strip leading and trailing whitespace. -/
def trimL (l : List Char) : List Char :=
  ((l.dropWhile jsIsWs).reverse.dropWhile jsIsWs).reverse

/-- JavaScript `s.trim()`. -/
def jsTrim (s : String) : String := String.mk (trimL s.toList)

/-- A `search_logs` row as written by `logSearchQuery`. -/
structure SearchLogEntry where
  username : String
  installation_number : String
deriving Repr, DecidableEq

/-- `logSearchQuery(username, installationNumber)`: the remote insert
either succeeds (`insertOutcome = none`, the row is appended) or fails
with some message (`insertOutcome = some msg`); the failure is caught by
the surrounding `try` and swallowed, so the function is total and simply
returns the (possibly unchanged) log table — it never raises. -/
def logSearchQuery (logs : List SearchLogEntry) (insertOutcome : Option String)
    (username installationNumber : String) : List SearchLogEntry :=
  match insertOutcome with
  | none => logs ++ [⟨username, installationNumber⟩]
  | some _ => logs

/-- `performSearch(term)` from MainScreen.tsx (63-114), restricted to its
data effects: an all-whitespace term returns early (`none`); otherwise
the trimmed term is looked up, and on both the success and the error
path a search-log append is attempted (fire-and-forget, `.catch`-ed).
The result triple is the lookup outcome shown to the user, the cache
store, and the log table. -/
def performSearch (remote : String → Option SupabaseCustomer) (store : CacheStore)
    (now : Nat) (logs : List SearchLogEntry) (insertOutcome : Option String)
    (username term : String) :
    Option (Except LookupError Customer × CacheStore × List SearchLogEntry) :=
  if jsTrim term = "" then none
  else
    match findCustomerByInstallationNumber remote store now (jsTrim term) with
    | (.ok customer, store1, _) =>
      some (.ok customer, store1, logSearchQuery logs insertOutcome username (jsTrim term))
    | (.error e, store1, _) =>
      some (.error e, store1, logSearchQuery logs insertOutcome username (jsTrim term))

/-- **C9.** The search-log append never raises (it is total and either
appends the one entry or leaves the table unchanged); the lookup outcome
and cache state of `performSearch` are identical whatever the log
insert's outcome; and a successful lookup whose log insert succeeds
appends exactly one entry keyed by the acting username and the queried
installation number. -/
theorem logSearchQuery_isolated (remote : String → Option SupabaseCustomer)
    (store : CacheStore) (now : Nat) (logs : List SearchLogEntry)
    (o1 o2 : Option String) (username term : String) :
    (∀ (logs2 : List SearchLogEntry) (o : Option String) (u i : String),
      logSearchQuery logs2 o u i = logs2 ++ [⟨u, i⟩] ∨
      logSearchQuery logs2 o u i = logs2) ∧
    ((performSearch remote store now logs o1 username term).map
        (fun r => (r.1, r.2.1)) =
      (performSearch remote store now logs o2 username term).map
        (fun r => (r.1, r.2.1))) ∧
    (∀ customer store1 logs1,
      performSearch remote store now logs none username term =
        some (.ok customer, store1, logs1) →
      logs1 = logs ++ [⟨username, jsTrim term⟩]) := by
  refine ⟨?_, ?_, ?_⟩
  · intro logs2 o u i
    cases o with
    | none => left; rfl
    | some _ => right; rfl
  · unfold performSearch
    by_cases htrim : jsTrim term = ""
    · simp [htrim]
    · simp only [if_neg htrim]
      rcases hfc : findCustomerByInstallationNumber remote store now (jsTrim term) with
        ⟨res, store1, flag⟩
      cases res <;> simp
  · intro customer store1 logs1 h
    unfold performSearch at h
    by_cases htrim : jsTrim term = ""
    · simp [htrim] at h
    · simp only [if_neg htrim] at h
      rcases hfc : findCustomerByInstallationNumber remote store now (jsTrim term) with
        ⟨res, store2, flag⟩
      rw [hfc] at h
      cases res with
      | ok c =>
        simp [logSearchQuery] at h
        exact h.2.2.symm
      | error e => simp at h

/-- Concrete instantiation of `logSearchQuery_isolated`: searching
`" 123 "` (trimming to `"123"`) with a successful insert appends the
entry for the acting user. -/
theorem logSearchQuery_isolated_witness :
    ([] : List SearchLogEntry) ++ [⟨"staff", "123"⟩] = [⟨"staff", "123"⟩] ∧
    (logSearchQuery [] (some "boom") "staff" "123" = [] ++ [⟨"staff", "123"⟩] ∨
      logSearchQuery [] (some "boom") "staff" "123" = []) ∧
    [⟨"staff", "123"⟩] = ([] : List SearchLogEntry) ++ [⟨"staff", jsTrim " 123 "⟩] :=
  ⟨rfl,
   (logSearchQuery_isolated (fun k => if k = "123" then
        some ⟨"123", "Ali", "5", "A", none, none⟩ else none)
      [] 0 [] (some "boom") none "staff" " 123 ").1 [] (some "boom") "staff" "123",
   (logSearchQuery_isolated (fun k => if k = "123" then
        some ⟨"123", "Ali", "5", "A", none, none⟩ else none)
      [] 0 [] (some "boom") none "staff" " 123 ").2.2
     (mapSupabaseCustomerToApp ⟨"123", "Ali", "5", "A", none, none⟩)
     (saveToCache [] 0 "123" (mapSupabaseCustomerToApp ⟨"123", "Ali", "5", "A", none, none⟩))
     [⟨"staff", "123"⟩] rfl⟩

/-! ## Admin statistics (`getUserActivityStats`, supabaseClient.ts 250-333) -/

/-- A raw `search_logs` row as read by the fallback
(`select('username, created_at')`); a null username is embedded as `""`
(both are falsy and skipped by `if (!username) return`). -/
structure SearchLogRow where
  username : String
  created_at : Nat
deriving Repr, DecidableEq

/-- A row of the precomputed `user_stats_view`. -/
structure ViewRow where
  username : String
  query_count : Nat
  last_login : Option Nat
deriving Repr, DecidableEq

/-- The output shape `UserActivityStat`. -/
structure UserActivityStat where
  username : String
  queryCount : Nat
  lastLogin : String
deriving Repr, DecidableEq

/-- Display text used when no login timestamp exists. -/
def noLoginText : String := "Giriş Yapmadı"

/-- One step of the `logs.forEach` accumulation: entries are
`(username, count, max created_at)` in first-occurrence order
(`stats[username].count++` and the `logDate > lastLoginDate` max
update). -/
def bumpStat : List (String × Nat × Nat) → String → Nat → List (String × Nat × Nat)
  | [], u, t => [(u, 1, t)]
  | (u0, c0, m0) :: rest, u, t =>
    if u0 = u then (u0, c0 + 1, Nat.max m0 t) :: rest
    else (u0, c0, m0) :: bumpStat rest u t

/-- The whole `logs.forEach` grouping pass (empty usernames skipped). -/
def statsFold (logs : List SearchLogRow) : List (String × Nat × Nat) :=
  logs.foldl (fun acc log =>
    if log.username = "" then acc
    else bumpStat acc log.username log.created_at) []

/-- `getUserActivityStats()`, with the two remote reads supplied as
parameters: `viewResult` is the `user_stats_view` read (`none` when the
view is unavailable or errors), `logsResult` the raw `search_logs` read,
and `format` the `tr-TR` locale rendering of a timestamp (abstracted:
the claims only state that the maximum timestamp is the one formatted). -/
def getUserActivityStats (format : Nat → String)
    (viewResult : Option (List ViewRow)) (logsResult : Option (List SearchLogRow)) :
    List UserActivityStat :=
  match viewResult with
  | some rows =>
    rows.map (fun stat =>
      { username := stat.username
        queryCount := stat.query_count
        lastLogin := match stat.last_login with
                     | some t => format t
                     | none => noLoginText })
  | none =>
    match logsResult with
    | none => []
    | some logs =>
      (statsFold logs).map (fun e =>
        { username := e.1, queryCount := e.2.1, lastLogin := format e.2.2 })

/-- Lookup of a username's accumulated entry. -/
def lookupStat (acc : List (String × Nat × Nat)) (u : String) : Option (Nat × Nat) :=
  (acc.find? (fun e => e.1 == u)).map (fun e => e.2)

/-- Specification-side accumulation of a username's log rows onto an
optional `(count, max)` pair. -/
def combineStat : Option (Nat × Nat) → List SearchLogRow → Option (Nat × Nat)
  | o, [] => o
  | none, l :: ls => combineStat (some (1, l.created_at)) ls
  | some (c, m), l :: ls => combineStat (some (c + 1, Nat.max m l.created_at)) ls

theorem lookupStat_bumpStat (acc : List (String × Nat × Nat)) (u : String) (t : Nat)
    (v : String) :
    lookupStat (bumpStat acc u t) v =
      if v = u then
        some (match lookupStat acc u with
              | none => (1, t)
              | some (c, m) => (c + 1, Nat.max m t))
      else lookupStat acc v := by
  induction acc with
  | nil =>
    by_cases h : v = u
    · simp [bumpStat, lookupStat, List.find?, h]
    · have hb : (u == v) = false := by simp; exact fun hh => h hh.symm
      simp [bumpStat, lookupStat, List.find?, h, hb]
  | cons e rest ih =>
    obtain ⟨u0, c0, m0⟩ := e
    by_cases h0 : u0 = u
    · subst h0
      by_cases h : v = u0
      · subst h
        simp [bumpStat, lookupStat, List.find?]
      · have hb : (u0 == v) = false := by simp; exact fun hh => h hh.symm
        simp [bumpStat, lookupStat, List.find?, hb, h]
    · by_cases h : v = u0
      · have hvu : v ≠ u := fun hh => h0 (h.symm.trans hh)
        have hb : (u0 == v) = true := by simp [h.symm]
        simp [bumpStat, if_neg h0, lookupStat, List.find?, hb, hvu]
      · have hb : (u0 == v) = false := by simp; exact fun hh => h hh.symm
        have hb2 : (u0 == u) = false := by simp; exact h0
        simp only [bumpStat, if_neg h0]
        simp only [lookupStat, List.find?, hb, hb2] at ih ⊢
        exact ih

theorem mem_keys_bumpStat (acc : List (String × Nat × Nat)) (u : String) (t : Nat)
    (v : String) :
    v ∈ (bumpStat acc u t).map (fun e => e.1) ↔
      v ∈ acc.map (fun e => e.1) ∨ v = u := by
  induction acc with
  | nil => simp [bumpStat]
  | cons e rest ih =>
    obtain ⟨u0, c0, m0⟩ := e
    by_cases h0 : u0 = u
    · subst h0
      by_cases h : v = u0 <;> simp [bumpStat, h]
    · simp only [bumpStat, if_neg h0, List.map_cons, List.mem_cons]
      rw [ih]
      tauto

theorem nodup_keys_bumpStat (acc : List (String × Nat × Nat)) (u : String) (t : Nat)
    (hnd : (acc.map (fun e => e.1)).Nodup) :
    ((bumpStat acc u t).map (fun e => e.1)).Nodup := by
  induction acc with
  | nil => simp [bumpStat]
  | cons e rest ih =>
    obtain ⟨u0, c0, m0⟩ := e
    simp only [List.map_cons, List.nodup_cons] at hnd
    by_cases h0 : u0 = u
    · subst h0
      simpa [bumpStat, List.nodup_cons] using hnd
    · simp only [bumpStat, if_neg h0, List.map_cons, List.nodup_cons]
      refine ⟨?_, ih hnd.2⟩
      rw [mem_keys_bumpStat]
      rintro (hmem | heq)
      · exact hnd.1 hmem
      · exact h0 heq

theorem lookupStat_statsFold_aux (logs : List SearchLogRow) :
    ∀ (acc : List (String × Nat × Nat)) (v : String), v ≠ "" →
      lookupStat (logs.foldl (fun acc log =>
          if log.username = "" then acc
          else bumpStat acc log.username log.created_at) acc) v =
        combineStat (lookupStat acc v) (logs.filter (fun l => l.username == v)) := by
  induction logs with
  | nil =>
    intro acc v _
    simp [combineStat]
  | cons l ls ih =>
    intro acc v hv
    by_cases hl : l.username = ""
    · have hlv : (l.username == v) = false := by
        simp [hl]; exact fun hh => hv hh.symm
      simp only [List.foldl_cons, if_pos hl, List.filter_cons, hlv]
      exact ih acc v hv
    · simp only [List.foldl_cons, if_neg hl]
      by_cases hveq : v = l.username
      · have hlv : (l.username == v) = true := by simp [hveq.symm]
        simp only [List.filter_cons, hlv]
        rw [ih (bumpStat acc l.username l.created_at) v hv]
        rw [lookupStat_bumpStat]
        simp only [if_pos hveq, hveq]
        rcases lookupStat acc l.username with _ | ⟨c, m⟩ <;> simp [combineStat]
      · have hlv : (l.username == v) = false := by
          simp; exact fun hh => hveq hh.symm
        simp only [List.filter_cons, hlv]
        rw [ih (bumpStat acc l.username l.created_at) v hv]
        rw [lookupStat_bumpStat]
        simp only [if_neg hveq]
        simp

theorem nodup_keys_statsFold_aux (logs : List SearchLogRow) :
    ∀ acc : List (String × Nat × Nat), ((acc.map (fun e => e.1)).Nodup) →
      (((logs.foldl (fun acc log =>
          if log.username = "" then acc
          else bumpStat acc log.username log.created_at) acc)).map
        (fun e => e.1)).Nodup := by
  induction logs with
  | nil => intro acc h; simpa using h
  | cons l ls ih =>
    intro acc h
    by_cases hl : l.username = ""
    · simp only [List.foldl_cons, if_pos hl]
      exact ih acc h
    · simp only [List.foldl_cons, if_neg hl]
      exact ih _ (nodup_keys_bumpStat acc l.username l.created_at h)

theorem mem_keys_statsFold_aux (logs : List SearchLogRow) :
    ∀ (acc : List (String × Nat × Nat)) (v : String),
      v ∈ ((logs.foldl (fun acc log =>
          if log.username = "" then acc
          else bumpStat acc log.username log.created_at) acc)).map (fun e => e.1) ↔
        v ∈ acc.map (fun e => e.1) ∨ (v ≠ "" ∧ ∃ l ∈ logs, l.username = v) := by
  induction logs with
  | nil => intro acc v; simp
  | cons l ls ih =>
    intro acc v
    by_cases hl : l.username = ""
    · simp only [List.foldl_cons, if_pos hl]
      rw [ih acc v]
      constructor
      · rintro (h | ⟨hv, l2, hmem, heq⟩)
        · exact .inl h
        · exact .inr ⟨hv, l2, .tail _ hmem, heq⟩
      · rintro (h | ⟨hv, l2, hmem, heq⟩)
        · exact .inl h
        · cases hmem with
          | head => exact absurd (heq.symm.trans hl) hv
          | tail _ hmem2 => exact .inr ⟨hv, l2, hmem2, heq⟩
    · simp only [List.foldl_cons, if_neg hl]
      rw [ih _ v, mem_keys_bumpStat]
      constructor
      · rintro ((h | heq) | ⟨hv, l2, hmem, hequ⟩)
        · exact .inl h
        · have hveq : v = l.username := heq
          refine .inr ⟨?_, l, .head _, hveq.symm⟩
          intro hh
          exact hl (hveq.symm.trans hh)
        · exact .inr ⟨hv, l2, .tail _ hmem, hequ⟩
      · rintro (h | ⟨hv, l2, hmem, hequ⟩)
        · exact .inl (.inl h)
        · cases hmem with
          | head => exact .inl (.inr hequ.symm)
          | tail _ hmem2 => exact .inr ⟨hv, l2, hmem2, hequ⟩

theorem lookupStat_of_mem_nodup (acc : List (String × Nat × Nat))
    (hnd : (acc.map (fun e => e.1)).Nodup) (e : String × Nat × Nat) (he : e ∈ acc) :
    lookupStat acc e.1 = some e.2 := by
  induction acc with
  | nil => simp at he
  | cons e0 rest ih =>
    simp only [List.map_cons, List.nodup_cons] at hnd
    cases he with
    | head =>
      simp [lookupStat, List.find?]
    | tail _ hmem =>
      have hne : (e0.1 == e.1) = false := by
        simp
        intro hh
        exact hnd.1 (hh ▸ List.mem_map_of_mem (fun x => x.1) hmem)
      simp only [lookupStat, List.find?, hne]
      exact ih hnd.2 hmem

theorem combineStat_some (ls : List SearchLogRow) :
    ∀ c m, combineStat (some (c, m)) ls =
      some (c + ls.length, (ls.map SearchLogRow.created_at).foldl Nat.max m) := by
  induction ls with
  | nil => intro c m; simp [combineStat]
  | cons l rest ih =>
    intro c m
    rw [combineStat, ih]
    simp only [List.length_cons, List.map_cons, List.foldl_cons]
    have harith : c + 1 + rest.length = c + (rest.length + 1) := by omega
    rw [harith]

theorem combineStat_none (ls : List SearchLogRow) (h : ls ≠ []) :
    combineStat none ls =
      some (ls.length, (ls.map SearchLogRow.created_at).foldl Nat.max 0) := by
  cases ls with
  | nil => exact absurd rfl h
  | cons l rest =>
    rw [combineStat, combineStat_some]
    simp only [List.length_cons, List.map_cons, List.foldl_cons, Nat.zero_max]
    rw [Nat.add_comm]

/-- **C8.** The manual fallback of `getUserActivityStats` (taken when the
aggregate view read yields nothing) is exact: if the raw logs are also
unreadable the result is `[]`; otherwise the output has exactly one entry
per distinct non-empty username occurring in the logs, whose `queryCount`
is the number of that user's rows and whose `lastLogin` is the formatted
maximum of their timestamps. -/
theorem getUserActivityStats_fallback_exact (format : Nat → String)
    (logs : List SearchLogRow) :
    getUserActivityStats format none none = [] ∧
    ((getUserActivityStats format none (some logs)).map (fun s => s.username)).Nodup ∧
    (∀ v, v ∈ (getUserActivityStats format none (some logs)).map
        (fun s => s.username) ↔
      (v ≠ "" ∧ ∃ l ∈ logs, l.username = v)) ∧
    (∀ s, s ∈ getUserActivityStats format none (some logs) →
      s.queryCount = (logs.filter (fun l => l.username == s.username)).length ∧
      s.lastLogin = format (((logs.filter (fun l => l.username == s.username)).map
        SearchLogRow.created_at).foldl Nat.max 0)) := by
  have hout : getUserActivityStats format none (some logs) =
      (statsFold logs).map (fun e =>
        { username := e.1, queryCount := e.2.1, lastLogin := format e.2.2 }) := rfl
  have hnd : ((statsFold logs).map (fun e => e.1)).Nodup :=
    nodup_keys_statsFold_aux logs [] (by simp)
  have hmem : ∀ v, v ∈ (statsFold logs).map (fun e => e.1) ↔
      (v ≠ "" ∧ ∃ l ∈ logs, l.username = v) := by
    intro v
    have := mem_keys_statsFold_aux logs [] v
    simpa [statsFold] using this
  refine ⟨rfl, ?_, ?_, ?_⟩
  · rw [hout]
    rw [List.map_map]
    exact hnd
  · intro v
    rw [hout, List.map_map]
    exact hmem v
  · intro s hs
    rw [hout] at hs
    obtain ⟨e, he, hse⟩ := List.mem_map.mp hs
    have husername : s.username = e.1 := by rw [← hse]
    have hu0 : e.1 ∈ (statsFold logs).map (fun x => x.1) := List.mem_map_of_mem _ he
    have ⟨hne, l0, hl0, hl0u⟩ := (hmem e.1).mp hu0
    have hlook : lookupStat (statsFold logs) e.1 = some e.2 :=
      lookupStat_of_mem_nodup (statsFold logs) hnd e he
    have hcomb : lookupStat (statsFold logs) e.1 =
        combineStat (lookupStat [] e.1) (logs.filter (fun l => l.username == e.1)) :=
      lookupStat_statsFold_aux logs [] e.1 hne
    have hfilne : logs.filter (fun l => l.username == e.1) ≠ [] := by
      apply List.ne_nil_of_mem
      · exact List.mem_filter.mpr ⟨hl0, by simp [hl0u]⟩
    have hempty : lookupStat ([] : List (String × Nat × Nat)) e.1 = none := rfl
    rw [hlook, hempty, combineStat_none _ hfilne] at hcomb
    have hinj := Option.some.inj hcomb
    have hc : e.2.1 = (logs.filter (fun l => l.username == e.1)).length := by
      have := congrArg Prod.fst hinj
      simpa using this
    have hm : e.2.2 = ((logs.filter (fun l => l.username == e.1)).map
        SearchLogRow.created_at).foldl Nat.max 0 := by
      have := congrArg Prod.snd hinj
      simpa using this
    constructor
    · rw [husername, ← hse]
      exact hc
    · rw [husername, ← hse]
      simpa using congrArg format hm

/-- Concrete instantiation of `getUserActivityStats_fallback_exact`:
among four log rows (one with an empty username), user `"ayse"` gets
count 2 and the formatted maximum timestamp 100. -/
theorem getUserActivityStats_fallback_exact_witness :
    (⟨"ayse", 2, toString (100 : Nat)⟩ : UserActivityStat).queryCount =
      (([⟨"ayse", 100⟩, ⟨"", 5⟩, ⟨"ayse", 50⟩, ⟨"mehmet", 70⟩] :
          List SearchLogRow).filter (fun l => l.username == "ayse")).length ∧
    (⟨"ayse", 2, toString (100 : Nat)⟩ : UserActivityStat).lastLogin =
      toString (((([⟨"ayse", 100⟩, ⟨"", 5⟩, ⟨"ayse", 50⟩, ⟨"mehmet", 70⟩] :
          List SearchLogRow).filter (fun l => l.username == "ayse")).map
        SearchLogRow.created_at).foldl Nat.max 0) :=
  (getUserActivityStats_fallback_exact toString
      [⟨"ayse", 100⟩, ⟨"", 5⟩, ⟨"ayse", 50⟩, ⟨"mehmet", 70⟩]).2.2.2
    ⟨"ayse", 2, toString (100 : Nat)⟩ (by decide)

/-! ## Character-level string helpers (JavaScript `split`, `join`) -/

/-- JavaScript `s.split(sep)` for a one-character separator, on the
character list. -/
def splitOnChar (sep : Char) : List Char → List (List Char)
  | [] => [[]]
  | a :: rest =>
    if a = sep then [] :: splitOnChar sep rest
    else
      match splitOnChar sep rest with
      | [] => [[a]]
      | h :: t => (a :: h) :: t

/-- JavaScript `parts.join(sep)` for a one-character separator. -/
def joinWith (sep : Char) : List (List Char) → List Char
  | [] => []
  | [p] => p
  | p :: rest => p ++ sep :: joinWith sep rest

theorem splitOnChar_ne_nil (sep : Char) (l : List Char) : splitOnChar sep l ≠ [] := by
  induction l with
  | nil => simp [splitOnChar]
  | cons a rest ih =>
    by_cases ha : a = sep
    · simp [splitOnChar, ha]
    · cases hsp : splitOnChar sep rest with
      | nil => exact absurd hsp ih
      | cons h t => simp [splitOnChar, ha, hsp]

theorem not_mem_of_mem_splitOnChar (sep : Char) (l : List Char) :
    ∀ p ∈ splitOnChar sep l, sep ∉ p := by
  induction l with
  | nil =>
    intro p hp
    simp [splitOnChar] at hp
    simp [hp]
  | cons a rest ih =>
    intro p hp
    by_cases ha : a = sep
    · rw [splitOnChar, if_pos ha] at hp
      cases hp with
      | head => simp
      | tail _ hmem => exact ih p hmem
    · rw [splitOnChar, if_neg ha] at hp
      cases hsp : splitOnChar sep rest with
      | nil => exact absurd hsp (splitOnChar_ne_nil sep rest)
      | cons h t =>
        rw [hsp] at hp
        cases hp with
        | head =>
          intro hmem
          cases hmem with
          | head => exact ha rfl
          | tail _ hmem2 =>
            exact ih h (hsp ▸ List.mem_cons_self h t) hmem2
        | tail _ hmem =>
          exact ih p (hsp ▸ List.mem_cons_of_mem h hmem)

theorem splitOnChar_append (sep : Char) (xs ys : List Char) (h : sep ∉ xs) :
    splitOnChar sep (xs ++ sep :: ys) = xs :: splitOnChar sep ys := by
  induction xs with
  | nil => simp [splitOnChar]
  | cons a rest ih =>
    have ha : ¬a = sep := fun hh => h (hh ▸ List.mem_cons_self a rest)
    have hrest : sep ∉ rest := fun hh => h (List.mem_cons_of_mem _ hh)
    rw [List.cons_append, splitOnChar, if_neg ha, ih hrest]

theorem splitOnChar_of_not_mem (sep : Char) (xs : List Char) (h : sep ∉ xs) :
    splitOnChar sep xs = [xs] := by
  induction xs with
  | nil => simp [splitOnChar]
  | cons a rest ih =>
    have ha : ¬a = sep := fun hh => h (hh ▸ List.mem_cons_self a rest)
    have hrest : sep ∉ rest := fun hh => h (List.mem_cons_of_mem _ hh)
    rw [splitOnChar, if_neg ha, ih hrest]

theorem splitOnChar_joinWith (sep : Char) (ps : List (List Char))
    (hs : ∀ p ∈ ps, sep ∉ p) (hne : ps ≠ []) :
    splitOnChar sep (joinWith sep ps) = ps := by
  induction ps with
  | nil => exact absurd rfl hne
  | cons p rest ih =>
    cases rest with
    | nil =>
      rw [joinWith]
      exact splitOnChar_of_not_mem sep p (hs p (List.mem_cons_self p []))
    | cons q t =>
      rw [joinWith, splitOnChar_append sep p _ (hs p (List.mem_cons_self p _))]
      rw [ih (fun x hx => hs x (List.mem_cons_of_mem p hx)) (by simp)]
      simp

/-! ## Customer-name masking (`maskName`, MainScreen.tsx 126-136) -/

/-- The per-part masking rule:
`part.length <= 2 ? part : part.substring(0, 2) + '***'`. -/
def maskPart (part : List Char) : List Char :=
  if part.length ≤ 2 then part else part.take 2 ++ ['*', '*', '*']

/-- `maskName(fullName)` from MainScreen.tsx: unrestricted users see the
full name; otherwise the name is split on the space character, each part
masked by `maskPart`, and the parts rejoined with spaces. -/
def maskName (isUnrestricted : Bool) (fullName : String) : String :=
  if isUnrestricted then fullName
  else String.mk (joinWith ' ' ((splitOnChar ' ' fullName.toList).map maskPart))

theorem space_not_mem_maskPart (p : List Char) (h : ' ' ∉ p) : ' ' ∉ maskPart p := by
  unfold maskPart
  by_cases hlen : p.length ≤ 2
  · simpa [hlen] using h
  · simp only [if_neg hlen]
    intro hmem
    rcases List.mem_append.mp hmem with h1 | h2
    · exact h (List.take_subset 2 p h1)
    · simp at h2

/-- **C10.** For a restricted user, the space-separated parts of the
masked display name are exactly the space-separated parts of the customer
name with every part longer than 2 characters replaced by its first 2
characters followed by `***` and shorter parts unchanged; for an
unrestricted user the name is shown completely unmasked. -/
theorem maskName_spec (fullName : String) :
    maskName true fullName = fullName ∧
    splitOnChar ' ' (maskName false fullName).toList =
      (splitOnChar ' ' fullName.toList).map maskPart := by
  refine ⟨rfl, ?_⟩
  have h1 : (maskName false fullName).toList =
      joinWith ' ' ((splitOnChar ' ' fullName.toList).map maskPart) := rfl
  rw [h1]
  apply splitOnChar_joinWith
  · intro p hp
    obtain ⟨q, hq, rfl⟩ := List.mem_map.mp hp
    exact space_not_mem_maskPart q (not_mem_of_mem_splitOnChar ' ' _ q hq)
  · intro hmap
    exact splitOnChar_ne_nil ' ' fullName.toList (List.map_eq_nil_iff.mp hmap)

/-! ## CSV export and import (`exportCustomersAsCSV`, supabaseClient.ts
404-431; the parsing part of `processCSV`, AdminScreen 276-351) -/

/-- `split(/\r?\n/)` preprocessing: a carriage return immediately before
a line feed is absorbed by the separator. -/
def normalizeEols : List Char → List Char
  | [] => []
  | a :: rest =>
    if a = '\r' ∧ rest.head? = some '\n' then normalizeEols rest
    else a :: normalizeEols rest

/-- `csvText.split(/\r?\n/)`. -/
def splitLines (l : List Char) : List (List Char) :=
  splitOnChar '\n' (normalizeEols l)

/-- `toLowerCase()` (the header keywords are ASCII). -/
def toLowerL (l : List Char) : List Char := l.map Char.toLower

/-- First half of `.replace(/^"|"$/g, '')`: one leading quote. -/
def dropLeadQuote (l : List Char) : List Char :=
  match l with
  | [] => []
  | a :: rest => if a = '"' then rest else a :: rest

/-- Second half of `.replace(/^"|"$/g, '')`: one trailing quote. -/
def dropTrailQuote (l : List Char) : List Char :=
  if l.getLast? = some '"' then l.dropLast else l

/-- `.replace(/^"|"$/g, '')`. -/
def stripQuotes (l : List Char) : List Char := dropTrailQuote (dropLeadQuote l)

/-- Per-column processing `c.trim().replace(/^"|"$/g, '')`. -/
def processCell (c : List Char) : List Char := stripQuotes (trimL c)

/-- The per-line body of the import loop (AdminScreen `processCSV`,
lines 297-315): trim, skip empty lines, split on `;` when present else
`,`, process each column, require at least 2 columns, build the
`Customer` (missing columns default to the empty string). -/
def parseLine (line : List Char) : Option Customer :=
  let trimmed := trimL line
  if trimmed = [] then none
  else
    let sep : Char := if trimmed.contains ';' then ';' else ','
    let cols := (splitOnChar sep trimmed).map processCell
    if cols.length < 2 then none
    else
      some { installationNumber := String.mk (cols.getD 0 [])
             name := String.mk (cols.getD 1 [])
             phone := String.mk (cols.getD 2 [])
             address := String.mk (cols.getD 3 [])
             latitude := some (String.mk (cols.getD 4 []))
             longitude := some (String.mk (cols.getD 5 [])) }

/-- The parsing phase of `processCSV(csvText)`: split into lines, skip
the first line when it is a recognized header (`tesisat` /
`installation` keyword, lowercased), parse every remaining line. -/
def processCSVParse (csvText : List Char) : List Customer :=
  let lines := splitLines csvText
  let first := toLowerL (lines.headD [])
  let start := if containsSub "tesisat".toList first ||
                  containsSub "installation".toList first then 1 else 0
  (lines.drop start).filterMap parseLine

/-- `row.latitude || ''` in the export row builder (`null` renders as the
empty string; the numeric column is carried as its decimal rendering). -/
def csvField : Option String → List Char
  | none => []
  | some s => s.toList

/-- The fixed export header `"Tesisat No; Ad Soyad; Telefon; Adres; Enlem; Boylam"`. -/
def csvHeader : List Char :=
  "Tesisat No; Ad Soyad; Telefon; Adres; Enlem; Boylam".toList

/-- One export row:
`[installation_number, "name", phone, "address", latitude, longitude].join(';')`
(the `join` written out). -/
def exportLine (row : SupabaseCustomer) : List Char :=
  row.installation_number.toList ++
    ';' :: '"' :: (row.name.toList ++
    '"' :: ';' :: (row.phone.toList ++
    ';' :: '"' :: (row.address.toList ++
    '"' :: ';' :: (csvField row.latitude ++
    ';' :: csvField row.longitude))))

/-- `exportCustomersAsCSV` (lines 404-431): the header line then one line
per customer row, each terminated by `\n` (the UTF-8 BOM is prepended at
download time and is outside the returned string). -/
def exportCustomersAsCSV (rows : List SupabaseCustomer) : List Char :=
  csvHeader ++ '\n' :: (rows.map (fun r => exportLine r ++ ['\n'])).flatten

/-- A character position that is absent or neither whitespace nor a
double quote (edge condition for unquoted CSV cells). -/
def edgeOkPlain : Option Char → Prop
  | none => True
  | some c => jsIsWs c = false ∧ c ≠ '"'

instance (o : Option Char) : Decidable (edgeOkPlain o) :=
  match o with
  | none => isTrue trivial
  | some c => inferInstanceAs (Decidable (jsIsWs c = false ∧ c ≠ '"'))

/-- A character position that is absent or not whitespace. -/
def edgeOkCoord : Option Char → Prop
  | none => True
  | some c => jsIsWs c = false

instance (o : Option Char) : Decidable (edgeOkCoord o) :=
  match o with
  | none => isTrue trivial
  | some c => inferInstanceAs (Decidable (jsIsWs c = false))

/-- An unquoted export cell (installation number, phone) that survives
the import's trim/quote-strip unchanged: no separator, no newline, no
whitespace or quote at either edge. -/
def plainCell (s : String) : Prop :=
  ';' ∉ s.toList ∧ '\n' ∉ s.toList ∧
  edgeOkPlain s.toList.head? ∧ edgeOkPlain s.toList.getLast?

/-- A quoted export cell (name, address): the surrounding quotes protect
the edges, so only the separator and the newline are excluded. -/
def quotedCell (s : String) : Prop := ';' ∉ s.toList ∧ '\n' ∉ s.toList

/-- A coordinate cell: no separator, no newline, no whitespace at the
edges (decimal renderings of numbers satisfy all of this). -/
def coordCell : Option String → Prop
  | none => True
  | some s => ';' ∉ s.toList ∧ '\n' ∉ s.toList ∧
      edgeOkCoord s.toList.head? ∧ edgeOkCoord s.toList.getLast?

instance (o : Option String) : Decidable (coordCell o) :=
  match o with
  | none => isTrue trivial
  | some s => inferInstanceAs (Decidable (';' ∉ s.toList ∧ '
' ∉ s.toList ∧
      edgeOkCoord s.toList.head? ∧ edgeOkCoord s.toList.getLast?))

instance (s : String) : Decidable (plainCell s) :=
  inferInstanceAs (Decidable (';' ∉ s.toList ∧ '\n' ∉ s.toList ∧
    edgeOkPlain s.toList.head? ∧ edgeOkPlain s.toList.getLast?))

instance (s : String) : Decidable (quotedCell s) :=
  inferInstanceAs (Decidable (';' ∉ s.toList ∧ '\n' ∉ s.toList))

/-- The per-row condition under which the CSV round trip is exact on the
four text fields. -/
def exportRowGood (r : SupabaseCustomer) : Prop :=
  plainCell r.installation_number ∧ quotedCell r.name ∧ plainCell r.phone ∧
  quotedCell r.address ∧ coordCell r.latitude ∧ coordCell r.longitude

instance (r : SupabaseCustomer) : Decidable (exportRowGood r) :=
  inferInstanceAs (Decidable (plainCell r.installation_number ∧ quotedCell r.name ∧
    plainCell r.phone ∧ quotedCell r.address ∧ coordCell r.latitude ∧
    coordCell r.longitude))

theorem trimL_eq_self (l : List Char)
    (hh : ∀ c, l.head? = some c → jsIsWs c = false)
    (hl : ∀ c, l.getLast? = some c → jsIsWs c = false) : trimL l = l := by
  unfold trimL
  have h1 : l.dropWhile jsIsWs = l := by
    cases l with
    | nil => rfl
    | cons a rest =>
      rw [List.dropWhile_cons]
      simp [hh a rfl]
  rw [h1]
  have h2 : l.reverse.dropWhile jsIsWs = l.reverse := by
    cases hr : l.reverse with
    | nil => rfl
    | cons a rest =>
      rw [List.dropWhile_cons]
      have ha : l.getLast? = some a := by
        rw [← List.head?_reverse, hr]
        rfl
      simp [hl a ha]
  rw [h2, List.reverse_reverse]

theorem mkToList (s : String) : String.mk s.toList = s := rfl

theorem processCell_plain (s : String) (h : plainCell s) :
    processCell s.toList = s.toList := by
  obtain ⟨_, _, hhead, hlast⟩ := h
  have htrim : trimL s.toList = s.toList := by
    apply trimL_eq_self
    · intro c hc
      rw [hc] at hhead
      exact hhead.1
    · intro c hc
      rw [hc] at hlast
      exact hlast.1
  unfold processCell stripQuotes
  rw [htrim]
  have hlead : dropLeadQuote s.toList = s.toList := by
    cases hc : s.toList with
    | nil => rfl
    | cons a rest =>
      have : a ≠ '"' := by
        rw [hc] at hhead
        exact hhead.2
      simp [dropLeadQuote, this]
  rw [hlead]
  unfold dropTrailQuote
  have hnq : ¬s.toList.getLast? = some '"' := by
    intro hc
    rw [hc] at hlast
    exact hlast.2 rfl
  rw [if_neg hnq]

theorem processCell_quoted (s : String) :
    processCell ('"' :: (s.toList ++ ['"'])) = s.toList := by
  have hlastq : ('"' :: (s.toList ++ ['"'])).getLast? = some '"' := by
    rw [show ('"' :: (s.toList ++ ['"'])) = ('"' :: s.toList) ++ ['"'] by simp]
    exact List.getLast?_concat _
  have htrim : trimL ('"' :: (s.toList ++ ['"'])) = '"' :: (s.toList ++ ['"']) := by
    apply trimL_eq_self
    · intro c hc
      simp at hc
      rw [← hc]
      rfl
    · intro c hc
      rw [hlastq] at hc
      cases hc
      rfl
  unfold processCell stripQuotes
  rw [htrim]
  have hlead : dropLeadQuote ('"' :: (s.toList ++ ['"'])) = s.toList ++ ['"'] := by
    simp [dropLeadQuote]
  rw [hlead]
  unfold dropTrailQuote
  rw [List.getLast?_concat]
  simp

theorem semi_not_mem_quotedCol (s : String) (h : quotedCell s) :
    ';' ∉ ('"' :: (s.toList ++ ['"'])) := by
  intro hmem
  rcases List.mem_cons.mp hmem with h1 | h2
  · exact absurd h1 (by decide)
  · rcases List.mem_append.mp h2 with h3 | h4
    · exact h.1 h3
    · simp at h4

theorem semi_not_mem_csvField (o : Option String) (h : coordCell o) :
    ';' ∉ csvField o := by
  cases o with
  | none => simp [csvField]
  | some s =>
    obtain ⟨h1, -, -, -⟩ := h
    exact h1

theorem nl_not_mem_csvField (o : Option String) (h : coordCell o) :
    '\n' ∉ csvField o := by
  cases o with
  | none => simp [csvField]
  | some s =>
    obtain ⟨-, h2, -, -⟩ := h
    exact h2

theorem splitSemi_exportLine (r : SupabaseCustomer) (h : exportRowGood r) :
    splitOnChar ';' (exportLine r) =
      [r.installation_number.toList,
       '"' :: (r.name.toList ++ ['"']),
       r.phone.toList,
       '"' :: (r.address.toList ++ ['"']),
       csvField r.latitude,
       csvField r.longitude] := by
  obtain ⟨hinst, hname, hphone, haddr, hlat, hlon⟩ := h
  unfold exportLine
  rw [splitOnChar_append ';' _ _ hinst.1]
  congr 1
  rw [show ('"' :: (r.name.toList ++ '"' :: ';' :: (r.phone.toList ++
        ';' :: '"' :: (r.address.toList ++ '"' :: ';' :: (csvField r.latitude ++
        ';' :: csvField r.longitude))))) =
      ('"' :: (r.name.toList ++ ['"'])) ++ ';' :: (r.phone.toList ++
        ';' :: '"' :: (r.address.toList ++ '"' :: ';' :: (csvField r.latitude ++
        ';' :: csvField r.longitude))) from by simp]
  rw [splitOnChar_append ';' _ _ (semi_not_mem_quotedCol r.name hname)]
  congr 1
  rw [splitOnChar_append ';' _ _ hphone.1]
  congr 1
  rw [show ('"' :: (r.address.toList ++ '"' :: ';' :: (csvField r.latitude ++
        ';' :: csvField r.longitude))) =
      ('"' :: (r.address.toList ++ ['"'])) ++ ';' :: (csvField r.latitude ++
        ';' :: csvField r.longitude) from by simp]
  rw [splitOnChar_append ';' _ _ (semi_not_mem_quotedCol r.address haddr)]
  congr 1
  rw [splitOnChar_append ';' _ _ (semi_not_mem_csvField r.latitude hlat)]
  congr 1
  exact splitOnChar_of_not_mem ';' _ (semi_not_mem_csvField r.longitude hlon)

theorem getLast?_cons_append_cons (a : Char) (xs : List Char) (b : Char)
    (ys : List Char) : (a :: (xs ++ b :: ys)).getLast? = (b :: ys).getLast? := by
  rw [← List.cons_append, List.getLast?_append_cons]

theorem exportLine_head_ok (r : SupabaseCustomer) (h : exportRowGood r) :
    ∀ c, (exportLine r).head? = some c → jsIsWs c = false := by
  intro c hc
  unfold exportLine at hc
  cases hil : r.installation_number.toList with
  | nil =>
    rw [hil] at hc
    simp at hc
    rw [← hc]
    decide
  | cons a rest =>
    rw [hil] at hc
    simp at hc
    have := h.1.2.2.1
    rw [hil] at this
    rw [← hc]
    exact this.1

theorem exportLine_last_ok (r : SupabaseCustomer) (h : exportRowGood r) :
    ∀ c, (exportLine r).getLast? = some c → jsIsWs c = false := by
  intro c hc
  unfold exportLine at hc
  simp only [List.getLast?_append_cons, List.getLast?_cons_cons,
      getLast?_cons_append_cons] at hc
  cases hlon : csvField r.longitude with
  | nil =>
    rw [hlon] at hc
    simp at hc
    rw [← hc]
    decide
  | cons b tail =>
    rw [hlon, List.getLast?_cons_cons] at hc
    have hedge : edgeOkCoord (csvField r.longitude).head? ∧
        edgeOkCoord (csvField r.longitude).getLast? := by
      have hcl := h.2.2.2.2.2
      cases ho : r.longitude with
      | none => simp [ho, csvField, edgeOkCoord]
      | some str =>
        rw [ho] at hcl
        obtain ⟨-, -, h3, h4⟩ := hcl
        simpa [csvField] using ⟨h3, h4⟩
    have := hedge.2
    rw [hlon, hc] at this
    exact this

theorem nl_not_mem_exportLine (r : SupabaseCustomer) (h : exportRowGood r) :
    '\n' ∉ exportLine r := by
  obtain ⟨hinst, hname, hphone, haddr, hlat, hlon⟩ := h
  have hlatn : '\n' ∉ csvField r.latitude := nl_not_mem_csvField _ hlat
  have hlonn : '\n' ∉ csvField r.longitude := nl_not_mem_csvField _ hlon
  intro hmem
  unfold exportLine at hmem
  simp only [List.mem_append, List.mem_cons] at hmem
  rcases hmem with h1 | h1 | h1 | h1 | h1 | h1 | h1 | h1 | h1 | h1 | h1 | h1 | h1 | h1 | h1
  all_goals
    first
      | exact absurd h1 (by decide)
      | exact hinst.2.1 h1
      | exact hname.2 h1
      | exact hphone.2.1 h1
      | exact haddr.2 h1
      | exact hlatn h1
      | exact hlonn h1

theorem normalizeEols_append (xs ys : List Char) (hnl : '\n' ∉ xs)
    (hcr : xs.getLast? ≠ some '\r') :
    normalizeEols (xs ++ '\n' :: ys) = xs ++ '\n' :: normalizeEols ys := by
  induction xs with
  | nil =>
    simp only [List.nil_append]
    rw [normalizeEols, if_neg (by simp)]
  | cons a rest ih =>
    have ha : a ≠ '\n' := fun hh => hnl (hh ▸ List.mem_cons_self a rest)
    cases rest with
    | nil =>
      have har : a ≠ '\r' := by
        intro hh
        exact hcr (by rw [hh]; rfl)
      simp only [List.cons_append, List.nil_append]
      rw [normalizeEols, if_neg (by simp [har])]
      rw [normalizeEols, if_neg (by simp)]
    | cons b rest2 =>
      have hb : b ≠ '\n' := fun hh =>
        hnl (hh ▸ List.mem_cons_of_mem a (List.mem_cons_self b rest2))
      have hnl2 : '\n' ∉ b :: rest2 := fun hh => hnl (List.mem_cons_of_mem a hh)
      have hcr2 : (b :: rest2).getLast? ≠ some '\r' := by
        rwa [List.getLast?_cons_cons] at hcr
      simp only [List.cons_append]
      rw [normalizeEols, if_neg (by simp [hb])]
      rw [show (b :: rest2) ++ '\n' :: ys = (b :: rest2) ++ '\n' :: ys from rfl] at *
      rw [List.cons_append] at ih
      rw [← List.cons_append] at *
      rw [ih hnl2 hcr2]
      simp

theorem splitLines_append (xs ys : List Char) (hnl : '\n' ∉ xs)
    (hcr : xs.getLast? ≠ some '\r') :
    splitLines (xs ++ '\n' :: ys) = xs :: splitLines ys := by
  unfold splitLines
  rw [normalizeEols_append xs ys hnl hcr, splitOnChar_append _ _ _ hnl]

theorem splitLines_export_body (rows : List SupabaseCustomer)
    (h : ∀ r ∈ rows, exportRowGood r) :
    splitLines ((rows.map (fun r => exportLine r ++ ['\n'])).flatten) =
      rows.map exportLine ++ [[]] := by
  induction rows with
  | nil => rfl
  | cons r rest ih =>
    have hr := h r (List.mem_cons_self r rest)
    have hrest : ∀ x ∈ rest, exportRowGood x := fun x hx =>
      h x (List.mem_cons_of_mem r hx)
    have hcr : (exportLine r).getLast? ≠ some '\r' := by
      intro hh
      have := exportLine_last_ok r hr '\r' hh
      exact absurd this (by decide)
    simp only [List.map_cons, List.flatten_cons]
    rw [List.append_assoc, List.singleton_append]
    rw [splitLines_append _ _ (nl_not_mem_exportLine r hr) hcr]
    rw [ih hrest]
    rfl

theorem parseLine_nil : parseLine [] = none := rfl

theorem processCSVParse_export (rows : List SupabaseCustomer)
    (h : ∀ r ∈ rows, exportRowGood r) :
    processCSVParse (exportCustomersAsCSV rows) =
      (rows.map exportLine).filterMap parseLine := by
  unfold processCSVParse exportCustomersAsCSV
  rw [splitLines_append _ _ (by decide) (by decide)]
  rw [splitLines_export_body rows h]
  have hdetect : containsSub "tesisat".toList (toLowerL csvHeader) = true := by decide
  simp only [List.headD_cons, hdetect, Bool.true_or, if_true, List.drop_succ_cons,
    List.drop_zero]
  rw [List.filterMap_append]
  simp [parseLine_nil]

theorem parseLine_exportLine (r : SupabaseCustomer) (hr : exportRowGood r) :
    parseLine (exportLine r) =
      some { installationNumber := r.installation_number, name := r.name,
             phone := r.phone, address := r.address,
             latitude := some (String.mk (processCell (csvField r.latitude))),
             longitude := some (String.mk (processCell (csvField r.longitude))) } := by
  have htrim : trimL (exportLine r) = exportLine r :=
    trimL_eq_self _ (exportLine_head_ok r hr) (exportLine_last_ok r hr)
  have hne : exportLine r ≠ [] := by
    unfold exportLine
    cases r.installation_number.toList <;> simp
  have hsemi : ';' ∈ exportLine r := by
    unfold exportLine
    exact List.mem_append_right _ (List.mem_cons_self _ _)
  have hcontains : (exportLine r).contains ';' = true := by
    rw [List.contains]
    exact List.elem_iff.mpr hsemi
  unfold parseLine
  rw [htrim, if_neg hne, hcontains]
  simp only [if_true]
  rw [splitSemi_exportLine r hr]
  simp only [List.map_cons, List.map_nil]
  rw [processCell_plain _ hr.1, processCell_quoted, processCell_plain _ hr.2.2.1,
      processCell_quoted]
  simp [mkToList]

theorem roundtrip_lines (rows : List SupabaseCustomer) :
    (∀ r ∈ rows, exportRowGood r) →
      (((rows.map exportLine).filterMap parseLine).map
        (fun c => (c.installationNumber, c.name, c.phone, c.address))) =
      rows.map (fun r => (r.installation_number, r.name, r.phone, r.address)) := by
  induction rows with
  | nil => intro _; rfl
  | cons r rest ih =>
    intro h
    have hr := h r (List.mem_cons_self r rest)
    have hrest : ∀ x ∈ rest, exportRowGood x := fun x hx =>
      h x (List.mem_cons_of_mem r hx)
    simp only [List.map_cons, List.filterMap_cons, parseLine_exportLine r hr]
    rw [ih hrest]

/-- **C7, amended.** Exporting customer rows whose installation number and
phone contain no `;`/newline and have no whitespace or quote at either
edge, whose name and address contain no `;`/newline, and whose coordinate
renderings contain no `;`/newline and no whitespace at the edges, then
re-importing the produced CSV, reconstructs installationNumber, name,
phone and address exactly (the header row is recognized and skipped, the
surrounding quotes on name/address are stripped). -/
theorem export_import_roundtrip (rows : List SupabaseCustomer)
    (hgood : ∀ r ∈ rows, exportRowGood r) :
    (processCSVParse (exportCustomersAsCSV rows)).map
        (fun c => (c.installationNumber, c.name, c.phone, c.address)) =
      rows.map (fun r => (r.installation_number, r.name, r.phone, r.address)) := by
  rw [processCSVParse_export rows hgood]
  exact roundtrip_lines rows hgood

/-- **C7, counterexample.** A name containing the separator (`"A;B"`)
does not survive the round trip: the simple `split(';')` cuts inside the
quoted field, so the re-imported record has name `"A"`, phone `"B"` and
address `"5"` instead of the original values. -/
theorem export_import_roundtrip_cex :
    (processCSVParse (exportCustomersAsCSV [⟨"1", "A;B", "5", "X", none, none⟩])).map
        (fun c => (c.installationNumber, c.name, c.phone, c.address)) =
      [("1", "A", "B", "5")] ∧
    ([("1", "A", "B", "5")] : List (String × String × String × String)) ≠
      [⟨"1", "A;B", "5", "X", none, none⟩].map
        (fun r : SupabaseCustomer =>
          (r.installation_number, r.name, r.phone, r.address)) := by
  constructor
  · decide
  · decide

/-- Concrete instantiation of `export_import_roundtrip`. -/
theorem export_import_roundtrip_witness :
    (processCSVParse (exportCustomersAsCSV
        [⟨"100", "Ali Veli", "0555", "Cadde 5, D 2", some "41.1", some "29.02"⟩,
         ⟨"200", "Ayse", "044", "Sokak", none, none⟩])).map
        (fun c => (c.installationNumber, c.name, c.phone, c.address)) =
      [⟨"100", "Ali Veli", "0555", "Cadde 5, D 2", some "41.1", some "29.02"⟩,
       ⟨"200", "Ayse", "044", "Sokak", none, none⟩].map
        (fun r : SupabaseCustomer =>
          (r.installation_number, r.name, r.phone, r.address)) :=
  export_import_roundtrip _ (by decide)

end Aksa
